import Mathlib

/-!
Verification of the `bcontext` layered-configuration core
(`src/source/python/bcontext/base.py`).

The development shallowly embeds the data model and the operations of
`Context`, `ContextStack` and `StackAutoResolveAdditiveMergeDelegate`.
Configuration trees (the `_data()` of a kvstore) are ordered association
lists of string keys to values, where a value is a scalar (string,
integer, Python `None`) or a nested tree.  The external `bdiff` merge
machinery (`TwoWayDiff`, `AutoResolveAdditiveMergeDelegate`) is not part
of the sources at hand; its behaviour is modelled from the spec where
noted.
-/

namespace BContext

mutual

/-- Value stored at a key of a configuration tree: a string, an integer,
Python `None`, or a nested ordered mapping. -/
inductive Val : Type where
  | vstr : String → Val
  | vint : Int → Val
  | vnone : Val
  | vtree : Entries → Val
deriving DecidableEq, Repr

/-- Ordered association list of string keys to values, the shallow
embedding of an `OrderedDict` configuration tree. -/
inductive Entries : Type where
  | nil : Entries
  | cons : String → Val → Entries → Entries
deriving DecidableEq, Repr

end

/-- Lookup of the first entry with the given key, as Python dict access. -/
def Entries.lookup : Entries → String → Option Val
  | .nil, _ => none
  | .cons k v rest, key => if k = key then some v else rest.lookup key

/-- Key membership in an entry list. -/
def Entries.hasKey : Entries → String → Bool
  | .nil, _ => false
  | .cons k _ rest, key => k = key || rest.hasKey key

/-- Concatenation of entry lists. -/
def Entries.append : Entries → Entries → Entries
  | .nil, ys => ys
  | .cons k v rest, ys => .cons k v (rest.append ys)

/-- Entries of the first list whose keys do not occur in the second list. -/
def Entries.filterNotIn : Entries → Entries → Entries
  | .nil, _ => .nil
  | .cons k v rest, ls =>
      if ls.hasKey k then rest.filterNotIn ls else .cons k v (rest.filterNotIn ls)

/-- Check of `left_value.endswith('!')`, expressed over the string's
character list so that it evaluates inside the kernel. -/
def endsWithBang (s : String) : Bool :=
  match s.data.getLast? with
  | some c => c = '!'
  | none => false

/-- Python slice `left_value[:-1]`: the string without its last character. -/
def dropLastChar (s : String) : String :=
  String.mk s.data.dropLast

/-- Modelled from the spec: conflict resolution of the external
`bdiff.AutoResolveAdditiveMergeDelegate` (not in the sources at hand) for a
key present on both sides: the right-hand (later layer) value wins, except
that a `None` on the right never overrides the left-hand value (null-safety:
`None` is "no opinion", not "clear the key"). -/
def autoResolveConflict (l r : Val) : Val :=
  match r with
  | .vnone => l
  | _ => r

/-- Conflict resolution of `StackAutoResolveAdditiveMergeDelegate._resolve_conflict`
(base.py lines 81-87): take the superclass resolution; if it chose the
right-hand value and the left-hand value is a string ending in `!`, return
the left-hand string with the trailing `!` stripped. -/
def stackResolveConflict (l r : Val) : Val :=
  let res := autoResolveConflict l r
  match l with
  | .vstr s =>
      if res = r then
        if endsWithBang s then .vstr (dropLastChar s) else res
      else res
  | _ => res

mutual

/-- Merge of two values at a common key.  Modelled from the spec for the
missing `bdiff.TwoWayDiff` driver: two nested trees are merged recursively;
any other combination is a leaf conflict handed to the stack delegate's
`_resolve_conflict`. -/
def mergeVal : Val → Val → Val
  | .vtree l, .vtree r => .vtree ((mergeLeft l r).append (r.filterNotIn l))
  | l, r => stackResolveConflict l r
termination_by structural l _ => l

/-- Merge of the left-hand tree's entries against the right-hand tree:
every left entry keeps its position; a key also present on the right is
resolved by `mergeVal`.  Modelled from the spec's additive two-way diff. -/
def mergeLeft : Entries → Entries → Entries
  | .nil, _ => .nil
  | .cons k v rest, rs =>
      match rs.lookup k with
      | some rv => .cons k (mergeVal v rv) (mergeLeft rest rs)
      | none => .cons k v (mergeLeft rest rs)
termination_by structural l _ => l

end

/-- Merge of two configuration trees: left entries (merged where the right
side also has the key) followed by the right-only entries.  This is one
`alg.diff(delegate, base, layer)` step of `_aggregated_kvstore`. -/
def mergeEntries (a b : Entries) : Entries :=
  (mergeLeft a b).append (b.filterNotIn a)

/-- Registry entry of a `Context`: a registered instance or type.  `pid`
is the object's identity; `isType` distinguishes classes from instances
(`isinstance(item, type)`); `ifaces` lists the interfaces the object
implements (`isinstance`/`issubclass` checks); `schemaId` is the schema
the object would return from `schema()` when it is a `ContextStackClient`. -/
structure Plugin where
  pid : Nat
  isType : Bool
  ifaces : List Nat
  schemaId : Nat
deriving DecidableEq, Repr

/-- Interface id standing for the `ContextStackClient` class used by
`ContextStack.schema_validator`. -/
def cscIface : Nat := 0

/-- One stack layer, the `Context` class: a name, an ordered registry of
instances and types, and a kvstore.  `schema` models the optional `schema`
attribute subclasses may carry (`hasattr(ctx, 'schema')`). -/
structure Context where
  name : String
  registry : List Plugin
  kvstore : Entries
  schema : Option Nat
deriving DecidableEq, Repr

/-- Iterate the registry newest-first and keep the items implementing the
interface for which the predicate holds (`Context._filter_registry`,
base.py lines 131-142). -/
def Context.filterRegistry (c : Context) (iface : Nat) (pred : Plugin → Bool) :
    List Plugin :=
  c.registry.reverse.filter (fun item => item.ifaces.contains iface && pred item)

/-- Instances (non-types) implementing the interface (`Context.instances`,
base.py lines 176-182). -/
def Context.instancesOf (c : Context) (iface : Nat) (pred : Plugin → Bool) :
    List Plugin :=
  c.filterRegistry iface (fun x => !x.isType && pred x)

/-- Classes (types) implementing the interface (`Context.classes`,
base.py lines 168-174). -/
def Context.classesOf (c : Context) (iface : Nat) (pred : Plugin → Bool) :
    List Plugin :=
  c.filterRegistry iface (fun x => x.isType && pred x)

/-- Register a plugin: append it to the registry when not already present,
return the plugin unchanged (`Context.register`, base.py lines 206-214). -/
def Context.register (c : Context) (p : Plugin) : Context × Plugin :=
  if p ∈ c.registry then (c, p)
  else ({ c with registry := c.registry ++ [p] }, p)

/-- Fresh `Context` as produced by `Context.__init__`/`Context.reset`:
empty registry, empty kvstore. -/
def Context.fresh (name : String) : Context :=
  { name := name, registry := [], kvstore := Entries.nil, schema := none }

/-- The stack of contexts with its merge cache (`ContextStack`):
`stack` is bottom-first; `cache` is the lazily built `_kvstore` attribute
(`none` when deleted); `numAggregated` is `_num_aggregated_kvstores`. -/
structure ContextStack where
  stack : List Context
  cache : Option Entries
  numAggregated : Nat
deriving DecidableEq, Repr

/-- Fold of the merge over a list of layers, the loop of
`ContextStack._aggregated_kvstore` (base.py lines 294-316): the running
aggregate starts at the supplied base and each layer's kvstore is diffed
onto it in stack order. -/
def aggregateFrom (base : Entries) (layers : List Context) : Entries :=
  layers.foldl (fun acc c => mergeEntries acc c.kvstore) base

/-- Cache invalidation, `ContextStack._mark_rebuild_changed_context`
(base.py lines 269-278): drop the cached kvstore and reset the aggregated
count to zero. -/
def ContextStack.markRebuild (s : ContextStack) : ContextStack :=
  { s with cache := none, numAggregated := 0 }

/-- Push a context onto the stack (`ContextStack.push`, base.py lines
324-334).  The cache and the aggregated count are left untouched. -/
def ContextStack.push (s : ContextStack) (c : Context) : ContextStack :=
  { s with stack := s.stack ++ [c] }

/-- Pop the top context (`ContextStack.pop` with default argument, base.py
lines 359-364): raises `ValueError` when only the base context is left,
otherwise removes the top context and invalidates the cache. -/
def ContextStack.popTop (s : ContextStack) : Except String (Context × ContextStack) :=
  if s.stack.length - 1 < 1 then
    Except.error "pop attempted on empty stack - base context wasn't counted"
  else
    match s.stack.getLast? with
    | some c => Except.ok (c, { stack := s.stack.dropLast, cache := none, numAggregated := 0 })
    | none => Except.error "pop attempted on empty stack - base context wasn't counted"

/-- The `while until_size != len(self): res.append(self.pop())` loop of
`ContextStack.pop`, with the number of iterations made explicit.  Popped
contexts are appended in pop order (top of stack first). -/
def popLoop : Nat → ContextStack → Except String (List Context × ContextStack)
  | 0, s => Except.ok ([], s)
  | n + 1, s =>
      match s.popTop with
      | .error e => .error e
      | .ok (c, s1) =>
          match popLoop n s1 with
          | .error e => .error e
          | .ok (cs, s2) => .ok (c :: cs, s2)

/-- `ContextStack.pop(until_size)` for a non-negative `until_size`
(base.py lines 347-358): error when `until_size` exceeds the stack length
or equals zero, otherwise pop until the stack has the requested length and
return the popped contexts in pop order. -/
def ContextStack.popUntil (s : ContextStack) (untilSize : Nat) :
    Except String (List Context × ContextStack) :=
  if s.stack.length < untilSize then
    Except.error "cant pop if until_size is larger than our current size"
  else if untilSize = 0 then
    Except.error "cant pop base context"
  else
    popLoop (s.stack.length - untilSize) s

/-- Reset the stack to a single base context and invalidate the cache
(`ContextStack.reset`, base.py lines 372-381). -/
def ContextStack.reset (_s : ContextStack) (c : Option Context) : ContextStack :=
  { stack := [c.getD (Context.fresh "default")], cache := none, numAggregated := 0 }

/-- Fresh stack as built by `ContextStack.__init__`: a single base context. -/
def ContextStack.fresh (c : Context) : ContextStack :=
  { stack := [c], cache := none, numAggregated := 0 }

/-- Top of stack (`ContextStack.top`, base.py lines 432-434). -/
def ContextStack.top (s : ContextStack) : Option Context :=
  s.stack.getLast?

/-- Aggregated settings with cache maintenance (`ContextStack.settings`,
base.py lines 418-430, together with the `LazyMixin` recomputation of the
`_kvstore` attribute): when the cache is absent the whole stack is folded;
when it is stale only the layers past `numAggregated` are folded onto the
cached aggregate; the refreshed cache and count are stored back. -/
def ContextStack.settings (s : ContextStack) : Entries × ContextStack :=
  match s.cache with
  | none =>
      let kv := aggregateFrom Entries.nil s.stack
      (kv, { s with cache := some kv, numAggregated := s.stack.length })
  | some kv =>
      if s.numAggregated ≠ s.stack.length then
        let kv2 := aggregateFrom kv (s.stack.drop s.numAggregated)
        (kv2, { s with cache := some kv2, numAggregated := s.stack.length })
      else
        (kv, s)

/-- Stack-wide instance lookup loop over the reversed stack
(`ContextStack.instances`, base.py lines 400-416): collect the layer's
matches and, unless `find_all` is set, break after the first layer. -/
def instancesLoop (iface : Nat) (pred : Plugin → Bool) (findAll : Bool) :
    List Context → List Plugin
  | [] => []
  | c :: rest =>
      c.instancesOf iface pred ++
        (if findAll then instancesLoop iface pred findAll rest else [])

/-- Stack-wide instance lookup (`ContextStack.instances`). -/
def ContextStack.instancesStack (s : ContextStack) (iface : Nat)
    (pred : Plugin → Bool) (findAll : Bool) : List Plugin :=
  instancesLoop iface pred findAll s.stack.reverse

/-- Stack-wide class lookup (`ContextStack.classes`, base.py lines
389-398): concatenate every layer's classes, top layer first. -/
def ContextStack.classesStack (s : ContextStack) (iface : Nat)
    (pred : Plugin → Bool) : List Plugin :=
  s.stack.reverse.foldr (fun c acc => c.classesOf iface pred ++ acc) []

/-- Append a schema unless it is already contained in the validator, the
`if schema not in validator: validator.append(schema)` step of
`schema_validator`. -/
def dedupAppend (v : List Nat) (sc : Nat) : List Nat :=
  if sc ∈ v then v else v ++ [sc]

/-- Schema aggregation (`ContextStack.schema_validator`, base.py lines
436-454): walk the stack bottom-up; append the layer's own schema when the
layer carries one; then walk the layer's `ContextStackClient` instances
reversed (undoing the newest-first order of `Context.instances`) and
append each schema not already present.  The validator is modelled as the
list of appended schema ids. -/
def ContextStack.schemaValidator (s : ContextStack) : List Nat :=
  s.stack.foldl
    (fun validator ctx =>
      let v1 := match ctx.schema with
        | some sc => validator ++ [sc]
        | none => validator
      ((ctx.instancesOf cscIface (fun _ => true)).reverse).foldl
        (fun v client => dedupAppend v client.schemaId) v1)
    []

/-- Candidate class for `ContextStack.new_instances`: `isPlugin` models
`hasattr(cls, '_auto_register_instance')`, `autoReg` the current value of
that class-level flag, and `ctorRaises` whether the constructor raises. -/
structure PluginCls where
  pid : Nat
  ifaces : List Nat
  isPlugin : Bool
  autoReg : Bool
  ctorRaises : Bool
deriving DecidableEq, Repr

/-- Instance produced by constructing a candidate class. -/
def mkInstance (cls : PluginCls) (serial : Nat) : Plugin :=
  { pid := serial, isType := false, ifaces := cls.ifaces, schemaId := 0 }

/-- Disable the auto-registration flag for the constructor's duration
(`cls._auto_register_instance = False`), a no-op when the class does not
carry the flag. -/
def suppressCls (cl : PluginCls) : PluginCls :=
  if cl.isPlugin then { cl with autoReg := false } else cl

/-- Restore the saved flag value in the `finally` block
(`cls._auto_register_instance = pv`), a no-op when the class does not
carry the flag. -/
def restoreCls (cl : PluginCls) (pv : Bool) : PluginCls :=
  if cl.isPlugin then { cl with autoReg := pv } else cl

/-- Outcome of a `new_instances` run: the candidate classes after the
call (their flags restored by the `finally` block), the instances created
so far, the stack registry after the call, and whether a constructor
exception propagated to the caller. -/
structure NIResult where
  classes : List PluginCls
  created : List Plugin
  registry : List Plugin
  raised : Bool
deriving DecidableEq, Repr

/-- The per-class loop of `ContextStack.new_instances` (base.py lines
488-517).  For each candidate class passing `maycreate`: save the
auto-register flag, set it to `False`, run the constructor (which
auto-registers the new instance into the registry exactly when the class
carries the flag and the flag it sees is set), restore the flag in the
`finally` block, and on success register the instance when
`take_ownership` is set.  A raising constructor stops the loop after the
flag is restored and the exception propagates (`raised`). -/
def newInstancesRun (takeOwnership : Bool)
    (maycreate : PluginCls → List Plugin → Bool) :
    List PluginCls → List Plugin → List Plugin → NIResult
  | [], acc, reg => { classes := [], created := acc, registry := reg, raised := false }
  | cls :: rest, acc, reg =>
      if maycreate cls acc then
        let pv := cls.autoReg
        let suppressed := suppressCls cls
        if cls.ctorRaises then
          { classes := restoreCls suppressed pv :: rest, created := acc,
            registry := reg, raised := true }
        else
          let inst := mkInstance cls acc.length
          let reg1 := if suppressed.isPlugin && suppressed.autoReg then reg ++ [inst] else reg
          let reg2 := if takeOwnership then reg1 ++ [inst] else reg1
          let r := newInstancesRun takeOwnership maycreate rest (acc ++ [inst]) reg2
          { classes := restoreCls suppressed pv :: r.classes, created := r.created,
            registry := r.registry, raised := r.raised }
      else
        let r := newInstancesRun takeOwnership maycreate rest acc reg
        { classes := cls :: r.classes, created := r.created,
          registry := r.registry, raised := r.raised }

/-- Mutating operations of the stack, for stating invariants over
arbitrary operation sequences. -/
inductive StackOp where
  | pushOp : Context → StackOp
  | popOp : StackOp
  | popUntilOp : Nat → StackOp
  | resetOp : Option Context → StackOp
deriving Repr

/-- Apply one operation; a raising operation leaves the stack unchanged. -/
def applyOp (s : ContextStack) : StackOp → ContextStack
  | .pushOp c => s.push c
  | .popOp =>
      match s.popTop with
      | .ok (_, s2) => s2
      | .error _ => s
  | .popUntilOp k =>
      match s.popUntil k with
      | .ok (_, s2) => s2
      | .error _ => s
  | .resetOp c => s.reset c

/-- Reference formulation of `schema_validator` following the source's
observable behaviour spelled out directly: each layer contributes its own
schema unconditionally, then its `ContextStackClient` instances in
registration order (oldest first), deduplicated against the validator. -/
def ContextStack.schemaValidatorSpec (s : ContextStack) : List Nat :=
  s.stack.foldl
    (fun validator ctx =>
      let v1 := match ctx.schema with
        | some sc => validator ++ [sc]
        | none => validator
      (ctx.registry.filter
          (fun item => item.ifaces.contains cscIface && !item.isType)).foldl
        (fun v client => dedupAppend v client.schemaId) v1)
    []

/-- The kvstore returned by one `settings()` call. -/
def ContextStack.settingsTree (s : ContextStack) : Entries :=
  (s.settings).1

/-- The stack state after one `settings()` call (its cache refreshed). -/
def ContextStack.settle (s : ContextStack) : ContextStack :=
  (s.settings).2

/-- Push a sequence of contexts without reading the settings in between. -/
def ContextStack.pushMany (s : ContextStack) (cs : List Context) : ContextStack :=
  cs.foldl ContextStack.push s

/-- Push a sequence of contexts, eagerly calling `settings()` after every
push. -/
def ContextStack.pushManyEager (s : ContextStack) (cs : List Context) : ContextStack :=
  cs.foldl (fun st c => (st.push c).settle) s

/-- Cache coherence invariant maintained by the stack: the aggregated
count never exceeds the stack length, a missing cache comes with count
zero, and a present cache holds exactly the aggregate of the first
`numAggregated` layers. -/
def Consistent (s : ContextStack) : Prop :=
  s.numAggregated ≤ s.stack.length ∧
  match s.cache with
  | none => s.numAggregated = 0
  | some kv => kv = aggregateFrom Entries.nil (s.stack.take s.numAggregated)

/-! Theorems. -/

theorem Entries.inductionOn (motive : Entries → Prop) (base : motive .nil)
    (step : ∀ k v rest, motive rest → motive (.cons k v rest)) :
    ∀ e, motive e
  | .nil => base
  | .cons k v rest => step k v rest (Entries.inductionOn motive base step rest)

theorem lookup_append (xs ys : Entries) (k : String) :
    (xs.append ys).lookup k =
      match xs.lookup k with
      | some v => some v
      | none => ys.lookup k := by
  induction xs using Entries.inductionOn with
  | base => simp [Entries.append, Entries.lookup]
  | step k0 v rest ih =>
      by_cases h : k0 = k <;> simp [Entries.append, Entries.lookup, h, ih]

theorem lookup_mergeLeft (a b : Entries) (k : String) :
    (mergeLeft a b).lookup k =
      match a.lookup k with
      | some v =>
          match b.lookup k with
          | some rv => some (mergeVal v rv)
          | none => some v
      | none => none := by
  induction a using Entries.inductionOn with
  | base => simp [mergeLeft, Entries.lookup]
  | step k0 v rest ih =>
      by_cases h : k0 = k
      · subst h
        cases hb : b.lookup k0 <;>
          simp [mergeLeft, Entries.lookup, hb]
      · cases hb : b.lookup k0 <;>
          simp [mergeLeft, Entries.lookup, hb, h, ih]

theorem mergeVal_vnone (v : Val) : mergeVal v Val.vnone = v := by
  cases v <;> simp [mergeVal, stackResolveConflict, autoResolveConflict]

theorem stackResolveConflict_bang (s : String) (rv : Val)
    (hs : endsWithBang s = true) (hnone : rv ≠ Val.vnone) :
    stackResolveConflict (Val.vstr s) rv = Val.vstr (dropLastChar s) := by
  cases rv <;> simp_all [stackResolveConflict, autoResolveConflict]

theorem lookup_mergeEntries (a b : Entries) (k : String) :
    (mergeEntries a b).lookup k =
      match a.lookup k with
      | some v =>
          match b.lookup k with
          | some rv => some (mergeVal v rv)
          | none => some v
      | none => (b.filterNotIn a).lookup k := by
  rw [mergeEntries, lookup_append, lookup_mergeLeft]
  cases ha : a.lookup k <;> cases hb : b.lookup k <;> simp

/-- Claim C2 (confirmed): null-safety of the merge.  Whenever the lower
tree holds a concrete (non-`None`) value at a key and the higher tree
holds `None` or no entry at that key, the merged tree holds the lower
tree's value at that key. -/
theorem merge_null_safety (a b : Entries) (k : String) (v : Val)
    (ha : a.lookup k = some v) (_hv : v ≠ Val.vnone)
    (hb : b.lookup k = some Val.vnone ∨ b.lookup k = none) :
    (mergeEntries a b).lookup k = some v := by
  rw [lookup_mergeEntries, ha]
  rcases hb with hb | hb <;> rw [hb]
  · show some (mergeVal v Val.vnone) = some v
    rw [mergeVal_vnone]

/-- Witness for `merge_null_safety`: merging `{"k": None}` above
`{"k": "v"}` keeps `"v"`. -/
theorem merge_null_safety_witness :
    (mergeEntries (Entries.cons "k" (Val.vstr "v") Entries.nil)
        (Entries.cons "k" Val.vnone Entries.nil)).lookup "k"
      = some (Val.vstr "v") :=
  merge_null_safety (Entries.cons "k" (Val.vstr "v") Entries.nil)
    (Entries.cons "k" Val.vnone Entries.nil) "k" (Val.vstr "v")
    (by decide) (by decide) (Or.inl (by decide))

/-- Claim C1 (counterexample): the claim quantifies over a higher layer
holding any scalar value at the path.  With lower value `"x!"` and higher
scalar `None`, the code keeps `"x!"` with the bang intact — the
superclass resolution returns the left-hand object, so the identity test
`res is right_value` fails and the bang is not stripped — whereas the
claim demands the stripped `"x"`. -/
theorem forced_override_counterexample :
    (mergeEntries (Entries.cons "p" (Val.vstr "x!") Entries.nil)
        (Entries.cons "p" Val.vnone Entries.nil)).lookup "p"
        = some (Val.vstr "x!") ∧
      some (Val.vstr "x!") ≠ some (Val.vstr "x") := by
  constructor
  · decide
  · decide

/-- Claim C1 (amended): forced override.  For every merge where the lower
tree holds a string ending in `!` at a key and the higher tree holds a
scalar value at the same key that is not `None`, the merged tree holds
the lower string with the trailing `!` stripped; in particular `"x!"`
below `"y"` yields `"x"` (see the witness). -/
theorem merge_forced_override (a b : Entries) (k : String) (s : String) (rv : Val)
    (ha : a.lookup k = some (Val.vstr s)) (hs : endsWithBang s = true)
    (hb : b.lookup k = some rv)
    (hscalar : ∀ t, rv ≠ Val.vtree t) (hnone : rv ≠ Val.vnone) :
    (mergeEntries a b).lookup k = some (Val.vstr (dropLastChar s)) := by
  rw [lookup_mergeEntries, ha, hb]
  have hmv : mergeVal (Val.vstr s) rv = stackResolveConflict (Val.vstr s) rv := by
    cases rv with
    | vtree t => exact absurd rfl (hscalar t)
    | vstr t => simp [mergeVal]
    | vint n => simp [mergeVal]
    | vnone => simp [mergeVal]
  show some (mergeVal (Val.vstr s) rv) = some (Val.vstr (dropLastChar s))
  rw [hmv, stackResolveConflict_bang s rv hs hnone]

/-- Witness for `merge_forced_override`: merging base `{"p": "x!"}` below
`{"p": "y"}` yields `"x"` at `"p"`. -/
theorem merge_forced_override_witness :
    (mergeEntries (Entries.cons "p" (Val.vstr "x!") Entries.nil)
        (Entries.cons "p" (Val.vstr "y") Entries.nil)).lookup "p"
      = some (Val.vstr "x") :=
  merge_forced_override (Entries.cons "p" (Val.vstr "x!") Entries.nil)
    (Entries.cons "p" (Val.vstr "y") Entries.nil) "p" "x!" (Val.vstr "y")
    (by decide) (by decide) (by decide) (by intro t; simp) (by decide)

/-- Claim C6 (confirmed): registration is idempotent.  `register` returns
the plugin unchanged, appends it only when absent, is a no-op when
present, and registering the same plugin twice in a fresh context leaves
the registry at length 1. -/
theorem register_idempotent (c : Context) (p : Plugin) :
    (c.register p).2 = p ∧
    (p ∈ c.registry → (c.register p).1 = c) ∧
    (p ∉ c.registry → (c.register p).1.registry = c.registry ++ [p]) ∧
    (∀ nm : String, (((Context.fresh nm).register p).1.register p).1.registry.length = 1) := by
  refine ⟨?_, ?_, ?_, ?_⟩
  · by_cases h : p ∈ c.registry <;> simp [Context.register, h]
  · intro h; simp [Context.register, h]
  · intro h; simp [Context.register, h]
  · intro nm; simp [Context.register, Context.fresh]

/-- Witness for `register_idempotent`: both the member and the non-member
branch at concrete inputs. -/
theorem register_idempotent_witness :
    ((Context.mk "e" [Plugin.mk 1 false [0] 0] Entries.nil none).register
        (Plugin.mk 1 false [0] 0)).1
      = Context.mk "e" [Plugin.mk 1 false [0] 0] Entries.nil none ∧
    ((Context.fresh "f").register (Plugin.mk 1 false [0] 0)).1.registry
      = [] ++ [Plugin.mk 1 false [0] 0] :=
  ⟨(register_idempotent (Context.mk "e" [Plugin.mk 1 false [0] 0] Entries.nil none)
      (Plugin.mk 1 false [0] 0)).2.1 (by decide),
   (register_idempotent (Context.fresh "f") (Plugin.mk 1 false [0] 0)).2.2.1
      (by decide)⟩

theorem popTop_ok_inv (s : ContextStack) (c : Context) (s2 : ContextStack)
    (h : s.popTop = Except.ok (c, s2)) :
    s2.stack = s.stack.dropLast ∧ s2.cache = none ∧ s2.numAggregated = 0 ∧
      2 ≤ s.stack.length := by
  unfold ContextStack.popTop at h
  by_cases hlen : s.stack.length - 1 < 1
  · simp [hlen] at h
  · cases hl : s.stack.getLast? with
    | none =>
        rw [List.getLast?_eq_none_iff] at hl
        simp [hl] at hlen
    | some c0 =>
        simp [hlen, hl] at h
        refine ⟨?_, ?_, ?_, ?_⟩
        · rw [← h.2]
        · rw [← h.2]
        · rw [← h.2]
        · omega

theorem popLoop_ok (n : Nat) :
    ∀ (s : ContextStack), n < s.stack.length →
      ∃ cs s2, popLoop n s = Except.ok (cs, s2) ∧
        s2.stack = s.stack.take (s.stack.length - n) ∧ cs.length = n ∧
        (1 ≤ n → s2.cache = none ∧ s2.numAggregated = 0) ∧
        (n = 0 → s2 = s) := by
  induction n with
  | zero =>
      intro s _
      exact ⟨[], s, rfl, by simp, rfl, by omega, fun _ => rfl⟩
  | succ m ih =>
      intro s hn
      have hlen : ¬ (s.stack.length - 1 < 1) := by omega
      have hne : s.stack ≠ [] := by
        intro h0; rw [h0] at hn; simp at hn
      cases hl : s.stack.getLast? with
      | none =>
          rw [List.getLast?_eq_none_iff] at hl
          exact absurd hl hne
      | some c0 =>
      have hpop : s.popTop =
          Except.ok (c0, { stack := s.stack.dropLast, cache := none, numAggregated := 0 }) := by
        unfold ContextStack.popTop
        simp [hlen, hl]
      have hm : m < (ContextStack.mk s.stack.dropLast none 0).stack.length := by
        simp [List.length_dropLast]
        omega
      obtain ⟨cs, s2, hloop, hstk, hcslen, hcache, hzero⟩ :=
        ih (ContextStack.mk s.stack.dropLast none 0) hm
      refine ⟨c0 :: cs, s2, ?_, ?_, ?_, ?_, ?_⟩
      · show popLoop (m + 1) s = Except.ok (c0 :: cs, s2)
        simp [popLoop, hpop, hloop]
      · have hL : (ContextStack.mk s.stack.dropLast none 0).stack = s.stack.dropLast := rfl
        rw [hstk, hL, List.length_dropLast, List.dropLast_eq_take, List.take_take]
        congr 1
        omega
      · simp [hcslen]
      · intro _
        rcases Nat.eq_zero_or_pos m with hm0 | hm1
        · have h2 := hzero hm0
          rw [h2]
          exact ⟨rfl, rfl⟩
        · exact hcache hm1
      · intro h; cases h

theorem popUntil_ok (s : ContextStack) (k : Nat) (h1 : 1 ≤ k)
    (h2 : k ≤ s.stack.length) :
    ∃ cs s2, s.popUntil k = Except.ok (cs, s2) ∧
      s2.stack = s.stack.take k ∧ cs.length = s.stack.length - k ∧
      (k < s.stack.length → s2.cache = none ∧ s2.numAggregated = 0) ∧
      (k = s.stack.length → s2 = s ∧ cs = []) := by
  have hn : s.stack.length - k < s.stack.length := by omega
  obtain ⟨cs, s2, hloop, hstk, hcslen, hcache, hzero⟩ :=
    popLoop_ok (s.stack.length - k) s hn
  have hnotbig : ¬ (s.stack.length < k) := by omega
  have hk0 : ¬ (k = 0) := by omega
  refine ⟨cs, s2, ?_, ?_, hcslen, ?_, ?_⟩
  · unfold ContextStack.popUntil
    simp [hnotbig, hk0, hloop]
  · rw [hstk]; congr 1; omega
  · intro hlt
    exact hcache (by omega)
  · intro heq
    have hz : s.stack.length - k = 0 := by omega
    exact ⟨hzero hz, by rw [← List.length_eq_zero]; rw [hcslen, hz]⟩

theorem popUntil_ok_inv (s : ContextStack) (k : Nat) (cs : List Context)
    (s2 : ContextStack) (h : s.popUntil k = Except.ok (cs, s2)) :
    s2.stack.length = k ∧ 1 ≤ k ∧ k ≤ s.stack.length := by
  unfold ContextStack.popUntil at h
  by_cases hbig : s.stack.length < k
  · simp [hbig] at h
  · by_cases hk0 : k = 0
    · simp [hbig, hk0] at h
    · simp [hbig, hk0] at h
      obtain ⟨cs2, st2, hloop, hstk2⟩ :
          ∃ cs2 st2, popLoop (s.stack.length - k) s = Except.ok (cs2, st2) ∧
            st2.stack = s.stack.take (s.stack.length - (s.stack.length - k)) := by
        obtain ⟨cs2, st2, hl, hs, _, _, _⟩ :=
          popLoop_ok (s.stack.length - k) s (by omega)
        exact ⟨cs2, st2, hl, by rw [hs]⟩
      rw [hloop] at h
      have : cs2 = cs ∧ st2 = s2 := by
        constructor
        · exact congrArg Prod.fst (Except.ok.inj h)
        · exact congrArg Prod.snd (Except.ok.inj h)
      rcases this with ⟨hc, hs2⟩
      subst hc hs2
      rw [hstk2]
      have hmin : s.stack.length - (s.stack.length - k) = k := by omega
      rw [hmin]
      simp [List.length_take]
      omega

theorem applyOp_ge_one (s : ContextStack) (op : StackOp)
    (h : 1 ≤ s.stack.length) : 1 ≤ (applyOp s op).stack.length := by
  cases op with
  | pushOp c => simp [applyOp, ContextStack.push]
  | popOp =>
      cases hp : s.popTop with
      | error e => simp [applyOp, hp, h]
      | ok r =>
          obtain ⟨c, s2⟩ := r
          have := popTop_ok_inv s c s2 hp
          simp [applyOp, hp]
          rw [this.1]
          simp [List.length_dropLast]
          omega
  | popUntilOp k =>
      cases hp : s.popUntil k with
      | error e => simp [applyOp, hp, h]
      | ok r =>
          obtain ⟨cs, s2⟩ := r
          have := popUntil_ok_inv s k cs s2 hp
          simp [applyOp, hp]
          omega
  | resetOp c => simp [applyOp, ContextStack.reset]

/-- Claim C5 (confirmed): stack underflow protection.  A `pop()` on a
stack of one layer raises `ValueError` and leaves the stack unchanged;
`pop(until_size)` raises when `until_size` is zero or exceeds the stack
length; and no sequence of push/pop/reset operations can make the stack
observably empty. -/
theorem stack_underflow_protection (s : ContextStack) (h : 1 ≤ s.stack.length) :
    (s.stack.length = 1 →
      s.popTop = Except.error "pop attempted on empty stack - base context wasn't counted" ∧
      applyOp s StackOp.popOp = s) ∧
    s.popUntil 0 = Except.error "cant pop base context" ∧
    (∀ k, s.stack.length < k →
      s.popUntil k = Except.error "cant pop if until_size is larger than our current size") ∧
    (∀ ops : List StackOp, 1 ≤ (ops.foldl applyOp s).stack.length) := by
  refine ⟨?_, ?_, ?_, ?_⟩
  · intro h1
    have herr : s.popTop =
        Except.error "pop attempted on empty stack - base context wasn't counted" := by
      unfold ContextStack.popTop
      have : s.stack.length - 1 < 1 := by omega
      simp [this]
    exact ⟨herr, by simp [applyOp, herr]⟩
  · unfold ContextStack.popUntil
    have : ¬ (s.stack.length < 0) := by omega
    simp [this]
  · intro k hk
    unfold ContextStack.popUntil
    simp [hk]
  · intro ops
    induction ops generalizing s with
    | nil => exact h
    | cons op rest ih =>
        simp only [List.foldl_cons]
        exact ih (applyOp s op) (applyOp_ge_one s op h)

/-- Witness for `stack_underflow_protection` at a one-layer stack. -/
theorem stack_underflow_protection_witness :
    ((ContextStack.fresh (Context.fresh "default")).popTop
        = Except.error "pop attempted on empty stack - base context wasn't counted") ∧
      1 ≤ (([StackOp.popOp, StackOp.popUntilOp 0, StackOp.popOp].foldl applyOp
          (ContextStack.fresh (Context.fresh "default"))).stack.length) :=
  ⟨((stack_underflow_protection (ContextStack.fresh (Context.fresh "default"))
      (by decide)).1 (by decide)).1,
    (stack_underflow_protection (ContextStack.fresh (Context.fresh "default"))
      (by decide)).2.2.2 [StackOp.popOp, StackOp.popUntilOp 0, StackOp.popOp]⟩

/-- Claim C10 (confirmed): a no-op `pop(until_size = len(stack))` neither
raises nor changes anything — the returned list is empty and the stack,
its cache and its aggregated count are returned exactly as they were —
while a `pop(until_size)` that actually removes at least one layer drops
the cache and resets the aggregated count. -/
theorem noop_pop_preserves (s : ContextStack) (h : 1 ≤ s.stack.length) :
    s.popUntil s.stack.length = Except.ok ([], s) ∧
    (∀ k, 1 ≤ k → k < s.stack.length →
      ∃ cs s2, s.popUntil k = Except.ok (cs, s2) ∧ cs ≠ [] ∧
        s2.cache = none ∧ s2.numAggregated = 0) := by
  constructor
  · unfold ContextStack.popUntil
    have h1 : ¬ (s.stack.length < s.stack.length) := by omega
    have h2 : ¬ (s.stack.length = 0) := by omega
    simp [h1, h2, popLoop]
  · intro k hk1 hk2
    obtain ⟨cs, s2, hp, _, hlen, hcache, _⟩ := popUntil_ok s k hk1 (by omega)
    refine ⟨cs, s2, hp, ?_, (hcache hk2).1, (hcache hk2).2⟩
    intro h0
    rw [h0] at hlen
    simp at hlen
    omega

/-- Witness for `noop_pop_preserves`: a two-layer stack with a live cache
survives `pop(until_size=2)` untouched, and `pop(until_size=1)` discards
the cache. -/
theorem noop_pop_preserves_witness :
    ((ContextStack.mk [Context.fresh "default", Context.fresh "e"]
        (some Entries.nil) 2).popUntil 2
      = Except.ok ([], ContextStack.mk [Context.fresh "default", Context.fresh "e"]
        (some Entries.nil) 2)) ∧
    (∃ cs s2, (ContextStack.mk [Context.fresh "default", Context.fresh "e"]
        (some Entries.nil) 2).popUntil 1 = Except.ok (cs, s2) ∧ cs ≠ [] ∧
        s2.cache = none ∧ s2.numAggregated = 0) :=
  ⟨(noop_pop_preserves (ContextStack.mk [Context.fresh "default", Context.fresh "e"]
      (some Entries.nil) 2) (by decide)).1,
   (noop_pop_preserves (ContextStack.mk [Context.fresh "default", Context.fresh "e"]
      (some Entries.nil) 2) (by decide)).2 1 (by decide) (by decide)⟩

/-- Claim C8: evaluation of `pop(until_size=1)` on the stack `[a, b, c]`.
The code returns the popped contexts in pop order, top of stack first
(`[c, b]`); pushing the returned sequence back in order produces
`[a, c, b]` and not the original `[a, b, c]`, contradicting the
docstring's promise of a list that "can be used to put the popped
contexts on again". -/
theorem pop_until_roundtrip_bug :
    ((ContextStack.mk [Context.fresh "a", Context.fresh "b", Context.fresh "c"] none 0).popUntil 1
      = Except.ok ([Context.fresh "c", Context.fresh "b"],
          ContextStack.mk [Context.fresh "a"] none 0)) ∧
    (([Context.fresh "c", Context.fresh "b"].foldl ContextStack.push
        (ContextStack.mk [Context.fresh "a"] none 0)).stack
      = [Context.fresh "a", Context.fresh "c", Context.fresh "b"]) ∧
    [Context.fresh "a", Context.fresh "c", Context.fresh "b"]
      ≠ [Context.fresh "a", Context.fresh "b", Context.fresh "c"] := by
  refine ⟨rfl, by decide, by decide⟩

theorem aggregateFrom_append (base : Entries) (l1 l2 : List Context) :
    aggregateFrom base (l1 ++ l2) = aggregateFrom (aggregateFrom base l1) l2 := by
  simp [aggregateFrom, List.foldl_append]

theorem consistent_settings :
    ∀ (s : ContextStack), Consistent s →
      s.settingsTree = aggregateFrom Entries.nil s.stack ∧
      s.settle = ContextStack.mk s.stack
        (some (aggregateFrom Entries.nil s.stack)) s.stack.length
  | ⟨st, none, n⟩, h => by
      have hn : n = 0 := h.2
      subst hn
      simp [ContextStack.settingsTree, ContextStack.settle, ContextStack.settings]
  | ⟨st, some kv, n⟩, h => by
      have hkv : kv = aggregateFrom Entries.nil (st.take n) := h.2
      by_cases hne : n = st.length
      · subst hne
        simp [ContextStack.settingsTree, ContextStack.settle, ContextStack.settings,
          hkv, List.take_length]
      · simp [ContextStack.settingsTree, ContextStack.settle, ContextStack.settings,
          hne, hkv, ← aggregateFrom_append, List.take_append_drop]

theorem consistent_fresh (c : Context) : Consistent (ContextStack.fresh c) := by
  constructor
  · simp [ContextStack.fresh]
  · rfl

theorem consistent_push (s : ContextStack) (c : Context) (h : Consistent s) :
    Consistent (s.push c) := by
  obtain ⟨hle, hc⟩ := h
  constructor
  · simp [ContextStack.push]
    omega
  · cases hcc : s.cache with
    | none =>
        rw [hcc] at hc
        have heq : (s.push c).cache = none := hcc
        rw [show (match (s.push c).cache with
            | none => (s.push c).numAggregated = 0
            | some kv => kv = aggregateFrom Entries.nil
                ((s.push c).stack.take (s.push c).numAggregated))
          = ((s.push c).numAggregated = 0) from by rw [heq]]
        exact hc
    | some kv =>
        rw [hcc] at hc
        have heq : (s.push c).cache = some kv := hcc
        rw [show (match (s.push c).cache with
            | none => (s.push c).numAggregated = 0
            | some kv0 => kv0 = aggregateFrom Entries.nil
                ((s.push c).stack.take (s.push c).numAggregated))
          = (kv = aggregateFrom Entries.nil
              ((s.push c).stack.take (s.push c).numAggregated)) from by rw [heq]]
        have hstk : (s.push c).stack.take (s.push c).numAggregated
            = s.stack.take s.numAggregated := by
          show (s.stack ++ [c]).take s.numAggregated = s.stack.take s.numAggregated
          exact List.take_append_of_le_length hle
        rw [hstk]
        exact hc

theorem consistent_settle (s : ContextStack) (h : Consistent s) :
    Consistent s.settle := by
  rw [(consistent_settings s h).2]
  constructor
  · simp
  · simp [List.take_length]

theorem settle_stack (s : ContextStack) (h : Consistent s) :
    s.settle.stack = s.stack := by
  rw [(consistent_settings s h).2]

theorem pushMany_stack (cs : List Context) :
    ∀ (s : ContextStack), (s.pushMany cs).stack = s.stack ++ cs := by
  induction cs with
  | nil => intro s; simp [ContextStack.pushMany]
  | cons c rest ih =>
      intro s
      show ((s.push c).pushMany rest).stack = s.stack ++ (c :: rest)
      rw [ih (s.push c)]
      simp [ContextStack.push]

theorem pushMany_consistent (cs : List Context) :
    ∀ (s : ContextStack), Consistent s → Consistent (s.pushMany cs) := by
  induction cs with
  | nil => intro s h; exact h
  | cons c rest ih =>
      intro s h
      exact ih (s.push c) (consistent_push s c h)

theorem pushManyEager_inv (cs : List Context) :
    ∀ (s : ContextStack), Consistent s →
      Consistent (s.pushManyEager cs) ∧ (s.pushManyEager cs).stack = s.stack ++ cs := by
  induction cs with
  | nil => intro s h; exact ⟨h, by simp [ContextStack.pushManyEager]⟩
  | cons c rest ih =>
      intro s h
      have h1 : Consistent (s.push c).settle :=
        consistent_settle (s.push c) (consistent_push s c h)
      have h2 := ih (s.push c).settle h1
      refine ⟨h2.1, ?_⟩
      have h3 : (s.pushManyEager (c :: rest)) = ((s.push c).settle).pushManyEager rest := rfl
      rw [h3, h2.2, settle_stack (s.push c) (consistent_push s c h)]
      simp [ContextStack.push]

/-- Claim C3 (confirmed): incremental cache correctness and fold
associativity.  Pushing a sequence of layers onto a fresh stack and
reading `settings()` after every push returns, at the end, the same
aggregate as a single lazy `settings()` call after all the pushes; and
folding a prefix of the layers first and then the remainder onto the
intermediate aggregate equals folding all layers in one pass. -/
theorem incremental_cache_correctness (c : Context) (cs : List Context) :
    ((ContextStack.fresh c).pushManyEager cs).settingsTree
      = ((ContextStack.fresh c).pushMany cs).settingsTree ∧
    (∀ (base : Entries) (L : List Context) (k : Nat),
      aggregateFrom (aggregateFrom base (L.take k)) (L.drop k) = aggregateFrom base L) := by
  constructor
  · have hf := consistent_fresh c
    have he := pushManyEager_inv cs (ContextStack.fresh c) hf
    have hl := pushMany_consistent cs (ContextStack.fresh c) hf
    rw [(consistent_settings _ he.1).1, (consistent_settings _ hl).1,
      he.2, pushMany_stack cs (ContextStack.fresh c)]
  · intro base L k
    rw [← aggregateFrom_append, List.take_append_drop]

/-- Claim C4 (counterexample): the loop of `ContextStack.instances`
breaks after the first (top) layer whenever `find_all` is false, even
when that layer yields no match.  With an instance registered in the base
layer and an empty layer above it, `instances` returns `[]` and not the
base layer's match the claim demands. -/
theorem instances_lookup_counterexample :
    (ContextStack.mk
        [Context.mk "base" [Plugin.mk 1 false [7] 0] Entries.nil none,
         Context.mk "top" [] Entries.nil none] none 0).instancesStack 7
        (fun _ => true) false = [] ∧
    ([] : List Plugin) ≠ [Plugin.mk 1 false [7] 0] := by
  exact ⟨by decide, by decide⟩

/-- Claim C4 (amended): with `find_all` false, `instances` searches only
the top layer and returns exactly its matches — lower layers are never
consulted, even when the top layer has no match; with `find_all` true it
returns every layer's matches, top layer first.  The claim's concrete
scenario holds when the layer holding `b` is the top layer: `[b]` without
`find_all`, `[b, a]` with it (see the witness). -/
theorem instances_top_layer (iface : Nat) (pred : Plugin → Bool) :
    (∀ (s : ContextStack) (c : Context), s.top = some c →
        s.instancesStack iface pred false = c.instancesOf iface pred) ∧
    (∀ (s : ContextStack), s.instancesStack iface pred true
        = s.stack.reverse.foldr (fun ctx acc => ctx.instancesOf iface pred ++ acc) []) := by
  constructor
  · intro s c htop
    have hh : s.stack.reverse.head? = some c := by
      rw [List.head?_reverse]
      exact htop
    cases hr : s.stack.reverse with
    | nil => rw [hr] at hh; cases hh
    | cons x xs =>
        rw [hr] at hh
        have hx : x = c := by
          simpa using hh
        subst hx
        show instancesLoop iface pred false s.stack.reverse = _
        rw [hr]
        simp [instancesLoop]
  · intro s
    show instancesLoop iface pred true s.stack.reverse = _
    generalize s.stack.reverse = l
    induction l with
    | nil => simp [instancesLoop]
    | cons x xs ih => simp [instancesLoop, ih]

/-- Witness for `instances_top_layer`: instance `a` in the base layer,
instance `b` in the top layer; lookup yields `[b]`, and `[b, a]` with
`find_all`. -/
theorem instances_top_layer_witness :
    (ContextStack.mk
        [Context.mk "base" [Plugin.mk 1 false [7] 0] Entries.nil none,
         Context.mk "top" [Plugin.mk 2 false [7] 0] Entries.nil none] none 0).instancesStack 7
        (fun _ => true) false = [Plugin.mk 2 false [7] 0] ∧
    (ContextStack.mk
        [Context.mk "base" [Plugin.mk 1 false [7] 0] Entries.nil none,
         Context.mk "top" [Plugin.mk 2 false [7] 0] Entries.nil none] none 0).instancesStack 7
        (fun _ => true) true
      = [Plugin.mk 2 false [7] 0, Plugin.mk 1 false [7] 0] := by
  constructor
  · rw [(instances_top_layer 7 (fun _ => true)).1
      (ContextStack.mk
        [Context.mk "base" [Plugin.mk 1 false [7] 0] Entries.nil none,
         Context.mk "top" [Plugin.mk 2 false [7] 0] Entries.nil none] none 0)
      (Context.mk "top" [Plugin.mk 2 false [7] 0] Entries.nil none) rfl]
    decide
  · rw [(instances_top_layer 7 (fun _ => true)).2
      (ContextStack.mk
        [Context.mk "base" [Plugin.mk 1 false [7] 0] Entries.nil none,
         Context.mk "top" [Plugin.mk 2 false [7] 0] Entries.nil none] none 0)]
    decide

/-- Claim C9 (counterexample): `schema_validator` walks a layer's client
instances oldest-first — the code explicitly reverses the newest-first
order of `Context.instances` — so two clients with schemas 1 and 2
registered in that order produce `[1, 2]`, not the `[2, 1]` the claim's
"most recently registered first" demands; and a layer's own schema is
appended without deduplication, so two layers carrying schema 5 produce
`[5, 5]`, violating "each distinct schema exactly once". -/
theorem schema_validator_counterexample :
    (ContextStack.mk
        [Context.mk "e" [Plugin.mk 1 false [0] 1, Plugin.mk 2 false [0] 2]
          Entries.nil none] none 0).schemaValidator = [1, 2] ∧
    ([1, 2] : List Nat) ≠ [2, 1] ∧
    (ContextStack.mk
        [Context.mk "e1" [] Entries.nil (some 5),
         Context.mk "e2" [] Entries.nil (some 5)] none 0).schemaValidator = [5, 5] := by
  exact ⟨by decide, by decide, by decide⟩

theorem instancesOf_true_reverse (c : Context) :
    (c.instancesOf cscIface (fun _ => true)).reverse
      = c.registry.filter (fun item => item.ifaces.contains cscIface && !item.isType) := by
  simp [Context.instancesOf, Context.filterRegistry]

/-- Claim C9 (amended): `schema_validator` visits layers bottom-to-top,
appends the layer's own schema unconditionally when the layer carries one
(layer schemas are not deduplicated), then walks that layer's
schema-exposing client instances in registration order — oldest first,
the code reverses the newest-first lookup order — appending each client
schema not already present in the validator. -/
theorem schema_validator_spec (s : ContextStack) :
    s.schemaValidator = s.schemaValidatorSpec := by
  unfold ContextStack.schemaValidator ContextStack.schemaValidatorSpec
  congr 1
  funext validator ctx
  rw [instancesOf_true_reverse]

theorem restore_suppress (cl : PluginCls) :
    restoreCls (suppressCls cl) cl.autoReg = cl := by
  rcases cl with ⟨p, i, iP, aR, cR⟩
  by_cases h : iP <;> simp [suppressCls, restoreCls, h]

theorem suppress_no_autoreg (cl : PluginCls) :
    ((suppressCls cl).isPlugin && (suppressCls cl).autoReg) = false := by
  rcases cl with ⟨p, i, iP, aR, cR⟩
  by_cases h : iP <;> simp [suppressCls, h]

/-- Claim C7 (confirmed): `new_instances` is exception-safe with respect
to auto-registration.  After the call the candidate classes — including
their auto-registration flags — are exactly as before, whether every
constructor succeeded or one raised (the flag is saved, forced to
`False` for the constructor's duration and restored in the `finally`
block); and the registry changes only as `take_ownership` decides: it
gains exactly the created instances when `take_ownership` is set and
nothing otherwise, never an auto-registered instance. -/
theorem new_instances_exception_safe (tO : Bool)
    (mc : PluginCls → List Plugin → Bool) (cls : List PluginCls) :
    ∀ (acc reg : List Plugin),
      ∃ created,
        (newInstancesRun tO mc cls acc reg).classes = cls ∧
        (newInstancesRun tO mc cls acc reg).created = acc ++ created ∧
        (newInstancesRun tO mc cls acc reg).registry
          = (if tO then reg ++ created else reg) := by
  induction cls with
  | nil =>
      intro acc reg
      exact ⟨[], rfl, by simp [newInstancesRun], by cases tO <;> simp [newInstancesRun]⟩
  | cons cl rest ih =>
      intro acc reg
      by_cases hmc : mc cl acc
      · by_cases hcr : cl.ctorRaises
        · refine ⟨[], ?_, ?_, ?_⟩
          · simp [newInstancesRun, hmc, hcr, restore_suppress]
          · simp [newInstancesRun, hmc, hcr]
          · cases tO <;> simp [newInstancesRun, hmc, hcr]
        · obtain ⟨k, h1, h2, h3⟩ :=
            ih (acc ++ [mkInstance cl acc.length])
              (if tO then reg ++ [mkInstance cl acc.length] else reg)
          refine ⟨mkInstance cl acc.length :: k, ?_, ?_, ?_⟩
          · simp [newInstancesRun, hmc, hcr, restore_suppress,
              suppress_no_autoreg, h1]
          · simp [newInstancesRun, hmc, hcr, suppress_no_autoreg, h2]
          · cases tO <;>
              (simp at h3; simp [newInstancesRun, hmc, hcr, suppress_no_autoreg, h3])
      · obtain ⟨k, h1, h2, h3⟩ := ih acc reg
        refine ⟨k, ?_, ?_, ?_⟩ <;> simp [newInstancesRun, hmc, h1, h2, h3]

end BContext
